import Mathlib

/-!
Shallow embedding of the track-resolution and media-composition engine of the
miitopia chat bot (src/main.rs, src/processor.rs, src/audio_source.rs,
src/error.rs, src/spotify.rs).

Modelling conventions:
* `f32` durations and offsets are modelled as `ℚ`.
* Rust panics are modelled by an `Option` wrapper: `none` is a panic,
  `some` a normal return (`Ok` or `Err`).
* Byte sequences are modelled as `List ℕ`; process standard-error output is
  modelled as decoded text (`String`), matching the text ffmpeg emits.
* Randomness and the network are parameters: an rng draw, a fetched
  response, a process outcome are inputs of the embedded functions.
-/

namespace Miitopia

/-- `SpotifyError` from src/spotify.rs (payloads carried as plain data). -/
inductive SpotifyError where
  | Generic (status : ℕ)
  | ApiError (message : String) (status : ℕ)
  | Unauthorized
  | InvalidToken
  | NotFound
  | Reqwest (e : String)
deriving DecidableEq

/-- `MiitopiaError` from src/error.rs.  This is the complete error taxonomy of
the program: note that there is a single `UnsupportedFileType` constructor and
no separate unsupported-audio-type constructor. -/
inductive MiitopiaError where
  | Serenity (e : String)
  | Ffmpeg (e : String)
  | Io (e : String)
  | InvalidFileType
  | UnsupportedFileType (mime : String)
  | Reqwest (e : String)
  | NoTracks
  | Spotify (e : SpotifyError)
deriving DecidableEq

/-- `AudioSource` from src/audio_source.rs. -/
inductive AudioSource where
  | Miitopia
  | Url (url : String)
  | Spotify (id : String)
deriving DecidableEq

/-- `MAX_LENGTH` from src/main.rs: `const MAX_LENGTH: f32 = 10.0;`. -/
def MAX_LENGTH : ℚ := 10

/-- The constant processor.rs refers to as `MAX_AUDIO_LENGTH`; its definition
is not under src/ (only uses are).  Modelled from the spec: §6 has a single
policy constant `MAX_LENGTH` ("maximum seconds of audio used per composition"),
so the two names denote the same constant. -/
def MAX_AUDIO_LENGTH : ℚ := MAX_LENGTH

/-! ### The classifier `AudioSource::from_msg_content` (src/audio_source.rs)

The two regexes `https://open.spotify.com/track/([a-zA-Z0-9]*)` and
`https://[^\s]*` are embedded as explicit left-to-right scanners with the
regex crate's leftmost-match semantics: `scanFirst` tries every start
position from the left, and at a given position the literal parts must match
exactly while the trailing starred class greedily takes the maximal run.
Without an `(?s)` flag the metacharacter `.` matches any character except
`\n`, and the class `\s` is the Unicode White_Space property. -/

/-- Match a literal list of characters at the front, returning the rest. -/
def stripLit (lit cs : List Char) : Option (List Char) :=
  match lit, cs with
  | [], rest => some rest
  | _ :: _, [] => none
  | l :: ls, c :: cs => if c = l then stripLit ls cs else none

/-- The character class `[a-zA-Z0-9]` (ASCII alphanumeric). -/
def isAlnumAscii (c : Char) : Bool := c.isAlpha || c.isDigit

/-- Consume one character as the regex metacharacter `.` does: any
character except a newline (the pattern has no `(?s)` flag). -/
def dropOne : List Char → Option (List Char)
  | [] => none
  | c :: rest => if c = '\n' then none else some rest

/-- Try the pattern `https://open.spotify.com/track/([a-zA-Z0-9]*)` at the
start of `cs`; each unescaped dot matches one character other than `\n`.
Returns the capture group: the maximal ASCII-alphanumeric run after
`/track/`. -/
def spotifyAt (cs : List Char) : Option (List Char) :=
  (stripLit "https://open".data cs).bind fun cs1 =>
  (dropOne cs1).bind fun cs2 =>
  (stripLit "spotify".data cs2).bind fun cs3 =>
  (dropOne cs3).bind fun cs4 =>
  (stripLit "com/track/".data cs4).bind fun cs5 =>
  some (cs5.takeWhile isAlnumAscii)

/-- The Unicode White_Space property: the regex crate's `\s` class
(U+0009-U+000D, U+0020, U+0085, U+00A0, U+1680, U+2000-U+200A, U+2028,
U+2029, U+202F, U+205F, U+3000). -/
def isUnicodeWhitespace (c : Char) : Bool :=
  decide ((9 ≤ c.toNat ∧ c.toNat ≤ 13) ∨ c.toNat = 32 ∨ c.toNat = 133 ∨
    c.toNat = 160 ∨ c.toNat = 5760 ∨ (8192 ≤ c.toNat ∧ c.toNat ≤ 8202) ∨
    c.toNat = 8232 ∨ c.toNat = 8233 ∨ c.toNat = 8239 ∨ c.toNat = 8287 ∨
    c.toNat = 12288)

/-- Try the pattern `https://[^\s]*` at the start of `cs`.  Returns the whole
match: the literal scheme part plus the maximal run free of Unicode
whitespace. -/
def httpsAt (cs : List Char) : Option (List Char) :=
  match stripLit "https://".data cs with
  | none => none
  | some rest => some ("https://".data ++ rest.takeWhile (fun c => !isUnicodeWhitespace c))

/-- Leftmost-match search: try `f` at every start position, left to right. -/
def scanFirst (f : List Char → Option α) : List Char → Option α
  | [] => f []
  | c :: cs =>
    match f (c :: cs) with
    | some r => some r
    | none => scanFirst f cs

/-- `AudioSource::from_msg_content` (src/audio_source.rs lines 32-51):
first the Spotify regex, then the generic https regex, else `Miitopia`. -/
def from_msg_content (s : String) : AudioSource :=
  match scanFirst spotifyAt s.data with
  | some id => AudioSource.Spotify (String.mk id)
  | none =>
    match scanFirst httpsAt s.data with
    | some url => AudioSource.Url (String.mk url)
    | none => AudioSource.Miitopia

/-- Modelled from the spec (§4.1, §8): "the path segment following `/track/`" —
the text after the first occurrence of `/track/`, up to the next path/query
delimiter or whitespace.  Used only to compare the spec's wording with the
code's capture group. -/
def specTrackPathSegment (s : String) : Option (List Char) :=
  match scanFirst (stripLit "/track/".data) s.data with
  | some rest =>
      some (rest.takeWhile (fun c => !(c = '/' || c = '?' || c = '#' || c.isWhitespace)))
  | none => none

/-! ### `AudioSource::get_track` (src/audio_source.rs lines 53-136) -/

/-- The track library: the ordered `IndexMap<PathBuf, f32>` as an insertion
ordered association list. -/
abbrev TrackLib := List (String × ℚ)

/-- The `AudioSource::Miitopia` arm of `get_track` (lines 59-84).
`idx` is the rng draw `rng.gen_range(0..tracks.len())` and `draw` the draw
`rng.gen_range(0.0..start_max)`; theorems constrain them to the sampled
ranges.  `none` models a panic: on an empty library `gen_range(0..0)` panics
("cannot sample empty range") before the `NoTracks` return is reached. -/
def miitopia_get_track (tracks : TrackLib) (idx : ℕ) (draw : ℚ) :
    Option (Except MiitopiaError (String × ℚ)) :=
  if tracks.length = 0 then
    none
  else
    match tracks.get? idx with
    | some (path, track_duration) =>
      let start_max := track_duration - min track_duration MAX_LENGTH
      let start := if 0 < start_max then draw else 0
      some (Except.ok (path, start))
    | none => some (Except.error MiitopiaError.NoTracks)

/-- The `AudioSource::Url` arm of `get_track` (lines 85-102), over the result
of `reqwest::get(url)`: `Except.error` a transport failure (propagated by
`?` as `MiitopiaError::Reqwest`), otherwise the response's `Content-Type`
header as `Option (Option String)` — `none` when the header is absent
(direct indexing `headers()[CONTENT_TYPE]` then panics, modelled as the
outer `none`), `some none` when it is present but `to_str()` fails,
`some (some mime)` when it decodes. -/
def url_get_track (url : String) (fetch : Except String (Option (Option String))) :
    Option (Except MiitopiaError (String × ℚ)) :=
  match fetch with
  | Except.error e => some (Except.error (MiitopiaError.Reqwest e))
  | Except.ok none => none
  | Except.ok (some none) =>
      some (Except.error (MiitopiaError.UnsupportedFileType "Unknown"))
  | Except.ok (some (some mime)) =>
      if mime = "audio/mpeg" ∨ mime = "audio/ogg" ∨ mime = "audio/vorbis" then
        some (Except.ok (url, 0))
      else
        some (Except.error (MiitopiaError.UnsupportedFileType mime))

/-! ### `apply_music` (src/processor.rs lines 73-193) -/

/-- External effects `apply_music` can perform, in order of occurrence in the
source: downloading the attachment (line 140) and spawning / waiting on the
ffmpeg process (lines 155-166). -/
inductive Eff where
  | download
  | spawn
deriving DecidableEq

/-- Outcome of the external ffmpeg process (`wait_with_output`): exit status,
standard-output bytes, standard-error text (modelled as decoded text). -/
structure ProcOutput where
  success : Bool
  stdout : List ℕ
  stderr : String
deriving DecidableEq

instance {ε ρ : Type} [DecidableEq ε] [DecidableEq ρ] : DecidableEq (Except ε ρ) := fun x y =>
  match x, y with
  | Except.ok a, Except.ok b =>
    if h : a = b then isTrue (by rw [h]) else isFalse (by intro hc; cases hc; exact h rfl)
  | Except.ok _, Except.error _ => isFalse (by intro hc; cases hc)
  | Except.error _, Except.ok _ => isFalse (by intro hc; cases hc)
  | Except.error a, Except.error b =>
    if h : a = b then isTrue (by rw [h]) else isFalse (by intro hc; cases hc; exact h rfl)

/-- The environment one `apply_music` call interacts with: the attachment's
declared `content_type`, the result of `attachment.download()`, and the
result of spawning and waiting on the ffmpeg process (an `Except.error` is a
spawn/pipe-level io failure propagated by `?`), plus the wall clock's
elapsed reading. -/
structure AttachmentEnv where
  contentType : Option String
  download : Except MiitopiaError (List ℕ)
  run : Except MiitopiaError ProcOutput
  elapsed : ℕ
deriving DecidableEq

/-- `JobResult` from src/processor.rs lines 65-71 (the `attachment` field is
not carried: it is the input attachment passed through unchanged). -/
structure JobResult where
  audio_file : String
  stderr : Option String
  output_file : List ℕ
  job_time : ℕ
deriving DecidableEq

/-- Rust's `str::trim`: drop whitespace from both ends. -/
def trimChars (cs : List Char) : List Char :=
  ((cs.dropWhile Char.isWhitespace).reverse.dropWhile Char.isWhitespace).reverse

/-- `str::trim` at the `String` level (kernel-reducible, unlike
`String.trim`). -/
def strTrim (s : String) : String := String.mk (trimChars s.data)

/-- The attachment content types accepted by the `match mimetype.as_str()` in
`apply_music` (lines 103-119); every other type hits the
`UnsupportedFileType` arm.  (The arms differ only in ffmpeg arguments, which
the claims do not depend on.) -/
def allowed_mimes : List String :=
  ["image/png", "image/jpeg", "image/webp", "image/bmp", "image/gif", "video/webm"]

/-- `apply_music` (src/processor.rs lines 73-193): validate the declared
content type, download the attachment, run ffmpeg, and classify its exit.
Returns the result together with the list of external effects performed. -/
def apply_music (audio_file : String) (env : AttachmentEnv) :
    Except MiitopiaError JobResult × List Eff :=
  match env.contentType with
  | none => (Except.error MiitopiaError.InvalidFileType, [])
  | some mime =>
    if mime ∈ allowed_mimes then
      match env.download with
      | Except.error e => (Except.error e, [Eff.download])
      | Except.ok _bytes =>
        match env.run with
        | Except.error e => (Except.error e, [Eff.download, Eff.spawn])
        | Except.ok out =>
          if out.success then
            let d := strTrim out.stderr
            (Except.ok
              { audio_file := audio_file
                stderr := if d = "" then none else some d
                output_file := out.stdout
                job_time := env.elapsed },
             [Eff.download, Eff.spawn])
          else
            (Except.error (MiitopiaError.Ffmpeg (strTrim out.stderr)),
             [Eff.download, Eff.spawn])
    else (Except.error (MiitopiaError.UnsupportedFileType mime), [])

/-! ### `scan_music` (src/processor.rs lines 26-64) -/

/-- One glob entry as `scan_music` sees it.  `formats : none` collapses the
skipped cases (glob error, `File::open` error, `read_format` error);
`formats : some l` is the decoded format list, each element the duration its
format reports (`none` for a format without one).  Durations as `ℚ`. -/
structure ScanEntry where
  path : String
  formats : Option (List (Option ℚ))

/-- The duration under which an entry is eligible for the library: decodable,
first format has a duration, and that duration is not below
`MAX_AUDIO_LENGTH`. -/
def entryDuration (e : ScanEntry) : Option ℚ :=
  match e.formats with
  | some (some d :: _) => if d < MAX_AUDIO_LENGTH then none else some d
  | _ => none

/-- `IndexMap::insert` guarded by `!map.contains_key(..)` as in line 54:
append-if-absent on an insertion-ordered association list. -/
def insertIfAbsent (m : List (String × ℚ)) (k : String) (v : ℚ) : List (String × ℚ) :=
  if (m.map Prod.fst).contains k then m else m ++ [(k, v)]

/-- One iteration of the `scan_music` loop body for one glob entry.
`none` models the panic of `&formats[0]` when `read_format` returns an empty
vec. -/
def scanStep (m : List (String × ℚ)) (e : ScanEntry) : Option (List (String × ℚ)) :=
  match e.formats with
  | none => some m
  | some [] => none
  | some (none :: _) => some m
  | some (some d :: _) =>
    if d < MAX_AUDIO_LENGTH then some m
    else some (insertIfAbsent m e.path d)

/-- `scan_music` (src/processor.rs lines 26-64) over the glob's entry list. -/
def scan_music (entries : List ScanEntry) : Option (List (String × ℚ)) :=
  entries.foldlM scanStep []

/-- Observation function on the scanned library: the duration stored under
path `p` (the first matching key). -/
def lookupDur : List (String × ℚ) → String → Option ℚ
  | [], _ => none
  | (k, v) :: rest, p => if k = p then some v else lookupDur rest p

/-- The duration of the first eligible entry with path `p` in the scanned
directory listing. -/
def firstEligible (entries : List ScanEntry) (p : String) : Option ℚ :=
  entries.findSome? (fun e => if e.path = p then entryDuration e else none)

/-- A concrete directory listing: a long track, a duplicate of its path, a
too-short track, and an unreadable entry. -/
def scanExample : List ScanEntry :=
  [⟨"a.ogg", some [some 30]⟩, ⟨"a.ogg", some [some 20]⟩,
   ⟨"b.ogg", some [some 5]⟩, ⟨"c.ogg", none⟩]

/-! ### The scheduler loop of `process_message` (src/processor.rs lines
218-275) and of `Handler::message` (src/main.rs lines 59-121)

`futures::future::select_all` resolves whichever outstanding future finishes
first; the embedding drives it by an explicit finish time per job and at each
step detaches the job with the smallest finish time (first such on a tie,
matching poll order). -/

/-- One launched composition job: its process's finish time and its result. -/
structure Job (ε ρ : Type) where
  finish : ℕ
  result : Except ε ρ
deriving DecidableEq

/-- Detach the earliest-finishing job (the first one on ties), returning it
and the remaining outstanding set. -/
def selectMin {ε ρ} : List (Job ε ρ) → Option (Job ε ρ × List (Job ε ρ))
  | [] => none
  | j :: js =>
    match selectMin js with
    | none => some (j, [])
    | some (k, rest) =>
      if j.finish ≤ k.finish then some (j, js) else some (k, j :: rest)

/-- The `while !futures.is_empty() { select_all(futures).await }` loop,
fuelled by the number of outstanding jobs. -/
def runSchedulerFuel {ε ρ} : ℕ → List (Job ε ρ) → List (Except ε ρ)
  | 0, _ => []
  | n + 1, js =>
    match selectMin js with
    | none => []
    | some (j, rest) => j.result :: runSchedulerFuel n rest

/-- Consume the launched jobs' completions in finish order. -/
def runScheduler {ε ρ} (js : List (Job ε ρ)) : List (Except ε ρ) :=
  runSchedulerFuel js.length js

/-- The per-attachment resolution outcome feeding the scheduler: either the
`get_track` error for that attachment, or the job launched for it. -/
abbrev Resolution (ε ρ : Type) := Except ε (Job ε ρ)

/-- The resolution failures, in attachment order. -/
def resolutionErrors {ε ρ} (res : List (Resolution ε ρ)) : List ε :=
  res.filterMap fun r => match r with | Except.error e => some e | Except.ok _ => none

/-- The launched jobs, in attachment (submission) order. -/
def launchedJobs {ε ρ} (res : List (Resolution ε ρ)) : List (Job ε ρ) :=
  res.filterMap fun r => match r with | Except.error _ => none | Except.ok j => some j

/-- Split completion outcomes into (successes, failures), both in finish
order. -/
def splitOutcomes {ε ρ} (outs : List (Except ε ρ)) : List ρ × List ε :=
  (outs.filterMap fun o => match o with | Except.ok r => some r | Except.error _ => none,
   outs.filterMap fun o => match o with | Except.ok _ => none | Except.error e => some e)

/-- `process_message` (src/processor.rs lines 218-275): each attachment's
resolution failure is pushed onto `errors` and the loop continues; all
launched jobs are then consumed in finish order, successes delivered and job
failures appended to `errors`.  Returns (successes, failures). -/
def process_message {ε ρ} (res : List (Resolution ε ρ)) : List ρ × List ε :=
  let outs := runScheduler (launchedJobs res)
  ((splitOutcomes outs).1, resolutionErrors res ++ (splitOutcomes outs).2)

/-- `Handler::message` (src/main.rs lines 59-121): the first resolution
failure is replied and the handler returns, dropping the collected,
never-polled futures — no job runs.  Only with no resolution failure does
the select loop run. -/
def handler_message {ε ρ} (res : List (Resolution ε ρ)) : List ρ × List ε :=
  match res.findSome? (fun r => match r with | Except.error e => some e | Except.ok _ => none) with
  | some e => ([], [e])
  | none =>
    let outs := runScheduler (launchedJobs res)
    ((splitOutcomes outs).1, (splitOutcomes outs).2)

/-! ### Concrete example inputs (used by witnesses and counterexamples) -/

/-- A 2-attachment message whose first attachment fails resolution and whose
second resolves to a job. -/
def resTwo : List (Resolution MiitopiaError JobResult) :=
  [Except.error MiitopiaError.NoTracks,
   Except.ok ⟨1, Except.ok ⟨"t.ogg", none, [], 0⟩⟩]

/-- A 3-attachment message: a succeeding job, a resolution failure, and a
failing job. -/
def resThree : List (Resolution MiitopiaError JobResult) :=
  [Except.ok ⟨2, Except.ok ⟨"a.ogg", none, [1], 7⟩⟩,
   Except.error MiitopiaError.NoTracks,
   Except.ok ⟨1, Except.error (MiitopiaError.Ffmpeg "x")⟩]

/-- A job submitted first but finishing later (at time 5). -/
def jobA : Job MiitopiaError JobResult := ⟨5, Except.ok ⟨"a.ogg", none, [1], 7⟩⟩

/-- A job submitted second but finishing earlier (at time 2). -/
def jobB : Job MiitopiaError JobResult := ⟨2, Except.ok ⟨"b.ogg", none, [2], 9⟩⟩

/-! ## Theorems -/

/-- C2 (code_bug evaluation): on an empty track library, `get_track` with the
Library source panics in `rng.gen_range(0..0)` (modelled `none`); it never
returns the `NoTracks` error, contrary to the claim. -/
theorem c2_empty_library_panics (idx : ℕ) (draw : ℚ) :
    miitopia_get_track [] idx draw = none ∧
    miitopia_get_track [] idx draw ≠ some (Except.error MiitopiaError.NoTracks) := by
  exact ⟨rfl, by simp [miitopia_get_track]⟩

/-- C4: for every track picked by Library resolution (rng draws within their
sampled ranges), a short track gets start offset 0, a long track a start
offset in `[0, duration − MAX_LENGTH)`, and in every case
`start + min duration MAX_LENGTH ≤ duration`. -/
theorem c4_library_offset_bounds (tracks : TrackLib) (idx : ℕ) (draw : ℚ)
    (path : String) (dur : ℚ)
    (hget : tracks.get? idx = some (path, dur))
    (hdraw : 0 < dur - min dur MAX_LENGTH →
      0 ≤ draw ∧ draw < dur - min dur MAX_LENGTH) :
    ∃ start,
      miitopia_get_track tracks idx draw = some (Except.ok (path, start)) ∧
      (dur ≤ MAX_LENGTH → start = 0) ∧
      (MAX_LENGTH < dur → 0 ≤ start ∧ start < dur - MAX_LENGTH) ∧
      start + min dur MAX_LENGTH ≤ dur := by
  have hne : tracks.length ≠ 0 := by
    intro h
    rw [List.length_eq_zero] at h
    subst h
    simp at hget
  by_cases hsm : 0 < dur - min dur MAX_LENGTH
  · have hlt : MAX_LENGTH < dur := by
      by_contra hle
      push_neg at hle
      rw [min_eq_left hle] at hsm
      simp at hsm
    have hmin : min dur MAX_LENGTH = MAX_LENGTH := min_eq_right hlt.le
    have hb := hdraw hsm
    rw [hmin] at hb
    refine ⟨draw, ?_, ?_, ?_, ?_⟩
    · simp only [miitopia_get_track, if_neg hne, hget]
      rw [if_pos hsm]
    · intro h
      exact absurd hlt (not_lt.mpr h)
    · intro _
      exact hb
    · rw [hmin]
      linarith [hb.2]
  · have hle : dur ≤ MAX_LENGTH := by
      by_contra hgt
      push_neg at hgt
      rw [min_eq_right hgt.le] at hsm
      exact hsm (by linarith)
    refine ⟨0, ?_, fun _ => rfl, ?_, ?_⟩
    · simp only [miitopia_get_track, if_neg hne, hget]
      rw [if_neg hsm]
    · intro h
      exact absurd h (not_lt.mpr hle)
    · rw [min_eq_left hle]
      linarith

/-- Witness for C4 at a concrete long track. -/
theorem c4_library_offset_bounds_witness :
    ∃ start,
      miitopia_get_track [("a.ogg", 30)] 0 5 = some (Except.ok ("a.ogg", start)) ∧
      ((30 : ℚ) ≤ MAX_LENGTH → start = 0) ∧
      (MAX_LENGTH < 30 → 0 ≤ start ∧ start < 30 - MAX_LENGTH) ∧
      start + min 30 MAX_LENGTH ≤ 30 :=
  c4_library_offset_bounds [("a.ogg", 30)] 0 5 "a.ogg" 30 rfl
    (by intro _; constructor <;> norm_num [MAX_LENGTH])

/-- C7 (amended): RemoteUrl resolution returns offset 0 and accepts exactly
the declared types `audio/mpeg`, `audio/ogg`, `audio/vorbis`; any other
declared type fails with `UnsupportedFileType(declaredType)` — the same
constructor used for attachment-level failures, there being no dedicated
unsupported-audio-type error in the taxonomy. -/
theorem c7_url_allowlist (url mime : String) :
    ((mime = "audio/mpeg" ∨ mime = "audio/ogg" ∨ mime = "audio/vorbis") →
      url_get_track url (Except.ok (some (some mime))) = some (Except.ok (url, 0)))
  ∧ (¬(mime = "audio/mpeg" ∨ mime = "audio/ogg" ∨ mime = "audio/vorbis") →
      url_get_track url (Except.ok (some (some mime))) =
        some (Except.error (MiitopiaError.UnsupportedFileType mime)))
  ∧ (∀ fetch r off, url_get_track url fetch = some (Except.ok (r, off)) →
      r = url ∧ off = 0) := by
  refine ⟨?_, ?_, ?_⟩
  · intro h
    simp only [url_get_track, if_pos h]
  · intro h
    simp only [url_get_track, if_neg h]
  · intro fetch r off h
    match fetch with
    | Except.error e => simp [url_get_track] at h
    | Except.ok none => simp [url_get_track] at h
    | Except.ok (some none) => simp [url_get_track] at h
    | Except.ok (some (some m)) =>
      by_cases hm : m = "audio/mpeg" ∨ m = "audio/ogg" ∨ m = "audio/vorbis"
      · simp only [url_get_track, if_pos hm, Option.some.injEq] at h
        cases h
        exact ⟨rfl, rfl⟩
      · simp [url_get_track, if_neg hm] at h

/-- Counterexample for C7 as stated: a `text/plain` response fails with the
attachment-level `UnsupportedFileType` constructor — the error taxonomy
embedded from src/error.rs has no distinct `UnsupportedAudioType` error. -/
theorem c7_url_allowlist_cex :
    url_get_track "https://example.com/file" (Except.ok (some (some "text/plain"))) =
      some (Except.error (MiitopiaError.UnsupportedFileType "text/plain")) := by
  decide

/-- Witness for C7 on both sides of the allow-list. -/
theorem c7_url_allowlist_witness :
    url_get_track "u" (Except.ok (some (some "audio/mpeg"))) = some (Except.ok ("u", 0))
  ∧ url_get_track "u" (Except.ok (some (some "video/mp4"))) =
      some (Except.error (MiitopiaError.UnsupportedFileType "video/mp4")) :=
  ⟨(c7_url_allowlist "u" "audio/mpeg").1 (Or.inl rfl),
   (c7_url_allowlist "u" "video/mp4").2.1 (by decide)⟩

/-- C9: a response without a `Content-Type` header makes the Url arm of
`get_track` panic (direct header indexing), never an error value; the call
returns `Ok` or `Err` exactly when the header is present, and a present but
non-ASCII value fails with `UnsupportedFileType("Unknown")`. -/
theorem c9_missing_header_panics (url : String) (resp : Option (Option String)) :
    (resp = none → url_get_track url (Except.ok resp) = none)
  ∧ ((url_get_track url (Except.ok resp)).isSome ↔ resp ≠ none)
  ∧ (resp = some none → url_get_track url (Except.ok resp) =
      some (Except.error (MiitopiaError.UnsupportedFileType "Unknown"))) := by
  rcases resp with _ | (_ | m)
  · refine ⟨fun _ => rfl, ?_, fun h => by simp at h⟩
    simp [url_get_track]
  · refine ⟨fun h => by simp at h, ?_, fun _ => rfl⟩
    simp [url_get_track]
  · refine ⟨fun h => by simp at h, ?_, fun h => by simp at h⟩
    by_cases hm : m = "audio/mpeg" ∨ m = "audio/ogg" ∨ m = "audio/vorbis"
    · simp [url_get_track, if_pos hm]
    · simp [url_get_track, if_neg hm]

/-- Witness for C9: missing header panics, non-ASCII header value errors. -/
theorem c9_missing_header_panics_witness :
    url_get_track "u" (Except.ok none) = none
  ∧ url_get_track "u" (Except.ok (some none)) =
      some (Except.error (MiitopiaError.UnsupportedFileType "Unknown")) :=
  ⟨(c9_missing_header_panics "u" none).1 rfl,
   (c9_missing_header_panics "u" (some none)).2.2 rfl⟩

/-- C5: with a valid content type, a successful download and a process
outcome, a non-zero exit fails with `Ffmpeg` (TranscodeFailed) carrying the
trimmed stderr; a zero exit returns the stdout bytes as the output file, the
elapsed time, and the trimmed stderr as a diagnostic present exactly when
non-empty. -/
theorem c5_exit_handling (audio : String) (env : AttachmentEnv) (mime : String)
    (bytes : List ℕ) (out : ProcOutput)
    (hm : env.contentType = some mime) (hall : mime ∈ allowed_mimes)
    (hd : env.download = Except.ok bytes) (hr : env.run = Except.ok out) :
    (out.success = false →
      (apply_music audio env).1 =
        Except.error (MiitopiaError.Ffmpeg (strTrim out.stderr)))
  ∧ (out.success = true →
      ∃ jr, (apply_music audio env).1 = Except.ok jr
        ∧ jr.output_file = out.stdout
        ∧ jr.job_time = env.elapsed
        ∧ jr.audio_file = audio
        ∧ jr.stderr = (if strTrim out.stderr = "" then none else some (strTrim out.stderr))
        ∧ (jr.stderr.isSome ↔ strTrim out.stderr ≠ "")) := by
  constructor
  · intro hs
    simp only [apply_music, hm, hd, hr, if_pos hall, hs, Bool.false_eq_true, if_false]
  · intro hs
    have h : (apply_music audio env).1 = Except.ok
        { audio_file := audio
          stderr := if strTrim out.stderr = "" then none else some (strTrim out.stderr)
          output_file := out.stdout
          job_time := env.elapsed } := by
      simp only [apply_music, hm, hd, hr, if_pos hall, hs, if_true]
    refine ⟨_, h, rfl, rfl, rfl, rfl, ?_⟩
    by_cases he : strTrim out.stderr = "" <;> simp [he]

/-- Witness for C5: stderr `" boom "` with a non-zero exit yields
`Ffmpeg "boom"` (trimmed), per the spec's example. -/
theorem c5_exit_handling_witness :
    (apply_music "track.ogg"
        ⟨some "image/png", Except.ok [1], Except.ok ⟨false, [], " boom "⟩, 3⟩).1
      = Except.error (MiitopiaError.Ffmpeg "boom") := by
  have h := (c5_exit_handling "track.ogg"
      ⟨some "image/png", Except.ok [1], Except.ok ⟨false, [], " boom "⟩, 3⟩
      "image/png" [1] ⟨false, [], " boom "⟩ rfl (by decide) rfl rfl).1 rfl
  exact h.trans (by decide)

/-- C6: `apply_music` validates the declared media type before any external
action: a missing type fails with `InvalidFileType`, a type outside the
allow-list fails with `UnsupportedFileType(type)`, and in both cases the
effect trace is empty — in particular no process is spawned. -/
theorem c6_mime_validation (audio : String) (env : AttachmentEnv) :
    (env.contentType = none →
      apply_music audio env = (Except.error MiitopiaError.InvalidFileType, [])
      ∧ Eff.spawn ∉ (apply_music audio env).2)
  ∧ (∀ mime, env.contentType = some mime → mime ∉ allowed_mimes →
      apply_music audio env = (Except.error (MiitopiaError.UnsupportedFileType mime), [])
      ∧ Eff.spawn ∉ (apply_music audio env).2) := by
  constructor
  · intro hm
    have h : apply_music audio env = (Except.error MiitopiaError.InvalidFileType, []) := by
      simp only [apply_music, hm]
    exact ⟨h, by rw [h]; simp⟩
  · intro mime hm hall
    have h : apply_music audio env =
        (Except.error (MiitopiaError.UnsupportedFileType mime), []) := by
      simp only [apply_music, hm, if_neg hall]
    exact ⟨h, by rw [h]; simp⟩

/-- Witness for C6: a `text/plain` attachment and a missing content type both
fail with an empty effect trace (no spawn), per the spec's round-trip
example. -/
theorem c6_mime_validation_witness :
    apply_music "t.ogg" ⟨some "text/plain", Except.ok [], Except.ok ⟨true, [], ""⟩, 0⟩
      = (Except.error (MiitopiaError.UnsupportedFileType "text/plain"), [])
  ∧ Eff.spawn ∉
      (apply_music "t.ogg" ⟨some "text/plain", Except.ok [], Except.ok ⟨true, [], ""⟩, 0⟩).2
  ∧ apply_music "t.ogg" ⟨none, Except.ok [], Except.ok ⟨true, [], ""⟩, 0⟩
      = (Except.error MiitopiaError.InvalidFileType, []) :=
  ⟨((c6_mime_validation "t.ogg"
      ⟨some "text/plain", Except.ok [], Except.ok ⟨true, [], ""⟩, 0⟩).2
      "text/plain" rfl (by decide)).1,
   ((c6_mime_validation "t.ogg"
      ⟨some "text/plain", Except.ok [], Except.ok ⟨true, [], ""⟩, 0⟩).2
      "text/plain" rfl (by decide)).2,
   ((c6_mime_validation "t.ogg"
      ⟨none, Except.ok [], Except.ok ⟨true, [], ""⟩, 0⟩).1 rfl).1⟩

/-! ### Scheduler lemmas -/

theorem selectMin_eq_none {ε ρ} (js : List (Job ε ρ)) : selectMin js = none ↔ js = [] := by
  cases js with
  | nil => simp [selectMin]
  | cons j js =>
    simp only [selectMin]
    cases h : selectMin js with
    | none => simp
    | some p =>
      obtain ⟨k, rest⟩ := p
      by_cases hle : j.finish ≤ k.finish <;> simp [hle]

theorem selectMin_length {ε ρ} :
    ∀ (js : List (Job ε ρ)) j rest, selectMin js = some (j, rest) →
      rest.length + 1 = js.length := by
  intro js
  induction js with
  | nil => intro j rest h; simp [selectMin] at h
  | cons a as ih =>
    intro j rest h
    simp only [selectMin] at h
    cases hsel : selectMin as with
    | none =>
      simp only [hsel] at h
      have hnil : as = [] := (selectMin_eq_none as).mp hsel
      simp only [Option.some.injEq, Prod.mk.injEq] at h
      obtain ⟨rfl, rfl⟩ := h
      subst hnil
      simp
    | some p =>
      obtain ⟨k, krest⟩ := p
      simp only [hsel] at h
      by_cases hle : a.finish ≤ k.finish
      · rw [if_pos hle] at h
        simp only [Option.some.injEq, Prod.mk.injEq] at h
        obtain ⟨rfl, rfl⟩ := h
        simp
      · rw [if_neg hle] at h
        simp only [Option.some.injEq, Prod.mk.injEq] at h
        obtain ⟨rfl, rfl⟩ := h
        have := ih k krest hsel
        simp only [List.length_cons]
        omega

theorem runSchedulerFuel_length {ε ρ} :
    ∀ (n : ℕ) (js : List (Job ε ρ)), js.length ≤ n →
      (runSchedulerFuel n js).length = js.length := by
  intro n
  induction n with
  | zero =>
    intro js h
    have : js = [] := List.length_eq_zero.mp (Nat.le_zero.mp h)
    subst this
    rfl
  | succ n ih =>
    intro js h
    cases hsel : selectMin js with
    | none =>
      have : js = [] := (selectMin_eq_none js).mp hsel
      subst this
      simp [runSchedulerFuel, selectMin]
    | some p =>
      obtain ⟨j, rest⟩ := p
      have hlen := selectMin_length js j rest hsel
      simp only [runSchedulerFuel, hsel, List.length_cons]
      rw [ih rest (by omega)]
      omega

/-- The scheduler produces one completion outcome per launched job. -/
theorem runScheduler_length {ε ρ} (js : List (Job ε ρ)) :
    (runScheduler js).length = js.length :=
  runSchedulerFuel_length js.length js le_rfl

theorem resolution_split_length {ε ρ} (res : List (Resolution ε ρ)) :
    (resolutionErrors res).length + (launchedJobs res).length = res.length := by
  induction res with
  | nil => rfl
  | cons r rs ih =>
    cases r <;>
      simp only [resolutionErrors, launchedJobs, List.filterMap_cons, List.length_cons] at ih ⊢ <;>
      omega

theorem splitOutcomes_length {ε ρ} (outs : List (Except ε ρ)) :
    (splitOutcomes outs).1.length + (splitOutcomes outs).2.length = outs.length := by
  induction outs with
  | nil => rfl
  | cons o os ih =>
    cases o <;>
      simp only [splitOutcomes, List.filterMap_cons, List.length_cons] at ih ⊢ <;>
      omega

/-- The handler's first-error search returns the head of the resolution
failure list. -/
theorem findSome?_resolution_head {ε ρ} (res : List (Resolution ε ρ)) :
    res.findSome?
        (fun r => match r with | Except.error e => some e | Except.ok _ => none)
      = (resolutionErrors res).head? := by
  induction res with
  | nil => rfl
  | cons r rs ih =>
    cases r with
    | error e => rfl
    | ok j => exact ih

/-- C1 (amended): in `process_message`, a single resolution failure among N
attachments leaves a failure record and still launches the other N−1 jobs,
whose N−1 outcomes plus the 1 failure make up the aggregate; in the live
`Handler::message` the same input instead ends handling at that failure: the
outcome is just the one error and no job is ever polled. -/
theorem c1_failure_isolation (res : List (Resolution MiitopiaError JobResult))
    (h : (resolutionErrors res).length = 1) :
    (launchedJobs res).length + 1 = res.length
  ∧ (process_message res).1.length + (process_message res).2.length = res.length
  ∧ ∃ e, resolutionErrors res = [e]
      ∧ (process_message res).2.head? = some e
      ∧ handler_message res = ([], [e]) := by
  have hsplit := resolution_split_length res
  have houts := runScheduler_length (launchedJobs res)
  have hso := splitOutcomes_length (runScheduler (launchedJobs res))
  obtain ⟨e, he⟩ := List.length_eq_one.mp h
  refine ⟨by omega, ?_, e, he, ?_, ?_⟩
  · simp only [process_message, List.length_append]
    omega
  · simp only [process_message, he, List.cons_append, List.nil_append, List.head?_cons]
  · simp only [handler_message, findSome?_resolution_head, he, List.head?_cons]

/-- Counterexample for C1 as stated: a message with 2 attachments whose first
fails resolution.  The claim requires 1 launched-job outcome plus 1 failure
(2 outcomes); the live handler produces only the single failure and launches
nothing. -/
theorem c1_failure_isolation_cex :
    handler_message resTwo = ([], [MiitopiaError.NoTracks])
  ∧ (handler_message resTwo).1.length + (handler_message resTwo).2.length ≠ 2 := by
  decide

/-- Witness for C1 at a concrete 3-attachment message (one resolution
failure, one succeeding job, one failing job). -/
theorem c1_failure_isolation_witness :
    (launchedJobs resThree).length + 1 = resThree.length
  ∧ (process_message resThree).1.length + (process_message resThree).2.length
      = resThree.length
  ∧ ∃ e, resolutionErrors resThree = [e]
      ∧ (process_message resThree).2.head? = some e
      ∧ handler_message resThree = ([], [e]) :=
  c1_failure_isolation resThree (by decide)

/-- C8: completions are consumed in finish order, not submission order — for
two concurrently launched jobs where A (submitted first) finishes after B,
the scheduler detaches B first and the aggregate places B's outcome before
A's; when both succeed, the success list is `[B, A]`. -/
theorem c8_finish_order (tA tB : ℕ) (rA rB : Except MiitopiaError JobResult)
    (h : tB < tA) :
    runScheduler [⟨tA, rA⟩, ⟨tB, rB⟩] = [rB, rA]
  ∧ ∀ a b, rA = Except.ok a → rB = Except.ok b →
      process_message [Except.ok ⟨tA, rA⟩, Except.ok ⟨tB, rB⟩] = ([b, a], []) := by
  have hns : ¬ tA ≤ tB := not_le.mpr h
  have h1 : runScheduler [(⟨tA, rA⟩ : Job MiitopiaError JobResult), ⟨tB, rB⟩] = [rB, rA] := by
    simp [runScheduler, runSchedulerFuel, selectMin, hns]
  refine ⟨h1, ?_⟩
  intro a b ha hb
  subst ha
  subst hb
  simp only [process_message, resolutionErrors, launchedJobs, List.filterMap_cons,
    List.filterMap_nil, h1, splitOutcomes, List.nil_append]

/-- Witness for C8 at concrete finish times 5 and 2. -/
theorem c8_finish_order_witness :
    runScheduler [jobA, jobB] = [jobB.result, jobA.result]
  ∧ process_message [Except.ok jobA, Except.ok jobB] =
      ([⟨"b.ogg", none, [2], 9⟩, ⟨"a.ogg", none, [1], 7⟩], []) :=
  ⟨(c8_finish_order 5 2 jobA.result jobB.result (by decide)).1,
   (c8_finish_order 5 2 jobA.result jobB.result (by decide)).2 _ _ rfl rfl⟩

/-! ### Library-scan lemmas -/

theorem lookupDur_eq_none_iff (m : List (String × ℚ)) (k : String) :
    lookupDur m k = none ↔ k ∉ m.map Prod.fst := by
  induction m with
  | nil => simp [lookupDur]
  | cons kv rest ih =>
    obtain ⟨a, v⟩ := kv
    by_cases h : a = k
    · subst h
      simp [lookupDur]
    · simp [lookupDur, h, ih, Ne.symm h]

theorem contains_keys_iff (m : List (String × ℚ)) (k : String) :
    ((m.map Prod.fst).contains k = true) ↔ k ∈ m.map Prod.fst :=
  List.elem_iff

theorem lookupDur_append_single (m : List (String × ℚ)) (k : String) (v : ℚ) (p : String) :
    lookupDur (m ++ [(k, v)]) p =
      match lookupDur m p with
      | some d => some d
      | none => if k = p then some v else none := by
  induction m with
  | nil => simp [lookupDur]
  | cons kv rest ih =>
    obtain ⟨a, w⟩ := kv
    by_cases h : a = p <;> simp [lookupDur, h, ih]

theorem lookupDur_insertIfAbsent (m : List (String × ℚ)) (k : String) (v : ℚ) (p : String) :
    lookupDur (insertIfAbsent m k v) p =
      match lookupDur m p with
      | some d => some d
      | none => if k = p then some v else none := by
  unfold insertIfAbsent
  by_cases hc : (m.map Prod.fst).contains k = true
  · rw [if_pos hc]
    have hk : lookupDur m k ≠ none := fun hnone =>
      absurd ((contains_keys_iff m k).mp hc) ((lookupDur_eq_none_iff m k).mp hnone)
    cases hl : lookupDur m p with
    | some d => rfl
    | none =>
      have hne : k ≠ p := by
        intro he
        subst he
        exact hk hl
      simp [hne]
  · rw [if_neg hc]
    exact lookupDur_append_single m k v p

theorem scan_music_go :
    ∀ (entries : List ScanEntry) (acc m : List (String × ℚ)),
      List.foldlM scanStep acc entries = some m →
      (∀ p, lookupDur m p =
        match lookupDur acc p with
        | some d => some d
        | none => firstEligible entries p)
      ∧ ((∀ pd ∈ acc, MAX_AUDIO_LENGTH ≤ pd.2) → ∀ pd ∈ m, MAX_AUDIO_LENGTH ≤ pd.2)
      ∧ ((acc.map Prod.fst).Nodup → (m.map Prod.fst).Nodup) := by
  intro entries
  induction entries with
  | nil =>
    intro acc m h
    simp only [List.foldlM_nil, Option.pure_def, Option.some.injEq] at h
    subst h
    refine ⟨?_, fun hv => hv, fun hn => hn⟩
    intro p
    cases hl : lookupDur acc p <;> simp [firstEligible]
  | cons e es ih =>
    intro acc m h
    rw [List.foldlM_cons] at h
    cases hstep : scanStep acc e with
    | none =>
      rw [hstep] at h
      cases h
    | some acc' =>
      rw [hstep] at h
      have h' : List.foldlM scanStep acc' es = some m := h
      obtain ⟨ihl, ihv, ihn⟩ := ih acc' m h'
      obtain ⟨pth, fmts⟩ := e
      rcases fmts with _ | ⟨_ | ⟨_ | d, tl⟩⟩
      · -- unreadable entry: skipped
        have hacc : acc' = acc := by
          simp only [scanStep, Option.some.injEq] at hstep
          exact hstep.symm
        rw [hacc] at ihl ihv ihn
        refine ⟨?_, ihv, ihn⟩
        intro p
        rw [ihl p]
        cases hl : lookupDur acc p <;>
          simp [firstEligible, List.findSome?_cons, entryDuration]
      · -- read_format returned an empty vec: scan panics, contradiction
        simp [scanStep] at hstep
      · -- first format has no duration: skipped
        have hacc : acc' = acc := by
          simp only [scanStep, Option.some.injEq] at hstep
          exact hstep.symm
        rw [hacc] at ihl ihv ihn
        refine ⟨?_, ihv, ihn⟩
        intro p
        rw [ihl p]
        cases hl : lookupDur acc p <;>
          simp [firstEligible, List.findSome?_cons, entryDuration]
      · by_cases hshort : d < MAX_AUDIO_LENGTH
        · -- too short: ignored
          have hacc : acc' = acc := by
            simp only [scanStep, if_pos hshort, Option.some.injEq] at hstep
            exact hstep.symm
          rw [hacc] at ihl ihv ihn
          refine ⟨?_, ihv, ihn⟩
          intro p
          rw [ihl p]
          cases hl : lookupDur acc p <;>
            simp [firstEligible, List.findSome?_cons, entryDuration, hshort]
        · -- eligible: inserted if the path is not already a key
          have hacc : acc' = insertIfAbsent acc pth d := by
            simp only [scanStep, if_neg hshort, Option.some.injEq] at hstep
            exact hstep.symm
          subst hacc
          refine ⟨?_, ?_, ?_⟩
          · intro p
            rw [ihl p, lookupDur_insertIfAbsent]
            cases hl : lookupDur acc p with
            | some d' => rfl
            | none =>
              by_cases hp : pth = p <;>
                simp [firstEligible, List.findSome?_cons, entryDuration, hshort, hp]
          · intro hv
            apply ihv
            intro pd hpd
            unfold insertIfAbsent at hpd
            by_cases hc : ((acc.map Prod.fst).contains pth) = true
            · rw [if_pos hc] at hpd
              exact hv pd hpd
            · rw [if_neg hc] at hpd
              rcases List.mem_append.mp hpd with hin | hnew
              · exact hv pd hin
              · rcases List.mem_singleton.mp hnew with rfl
                exact le_of_not_lt hshort
          · intro hn
            apply ihn
            unfold insertIfAbsent
            by_cases hc : ((acc.map Prod.fst).contains pth) = true
            · rw [if_pos hc]
              exact hn
            · rw [if_neg hc]
              have hnotmem : pth ∉ acc.map Prod.fst := fun hmem =>
                hc ((contains_keys_iff acc pth).mpr hmem)
              rw [List.map_append]
              exact List.Nodup.append hn (List.nodup_singleton pth)
                (by
                  intro x hx hx'
                  rcases List.mem_singleton.mp hx' with rfl
                  exact hnotmem hx)

/-- C10: every entry of the library built by `scan_music` has duration at
least the maximum-clip-length constant (decodable tracks strictly below it
are silently omitted, like unreadable ones), the keys are unique, and each
key maps to the duration of the first eligible occurrence of that path. -/
theorem c10_scan_invariant (entries : List ScanEntry) (m : List (String × ℚ))
    (h : scan_music entries = some m) :
    (∀ pd ∈ m, MAX_AUDIO_LENGTH ≤ pd.2)
  ∧ (m.map Prod.fst).Nodup
  ∧ ∀ p, lookupDur m p = firstEligible entries p := by
  obtain ⟨hl, hv, hn⟩ := scan_music_go entries [] m h
  refine ⟨hv (by simp), hn (by simp), ?_⟩
  intro p
  have := hl p
  simpa [lookupDur] using this

/-- Witness for C10 at a concrete directory listing with a long track, a
duplicate path, a too-short track, and an unreadable entry. -/
theorem c10_scan_invariant_witness :
    (∀ pd ∈ [("a.ogg", (30 : ℚ))], MAX_AUDIO_LENGTH ≤ pd.2)
  ∧ (([("a.ogg", (30 : ℚ))]).map Prod.fst).Nodup
  ∧ ∀ p, lookupDur [("a.ogg", (30 : ℚ))] p = firstEligible scanExample p :=
  c10_scan_invariant scanExample [("a.ogg", 30)] (by decide)

/-! ### Classifier lemmas -/

theorem stripLit_eq_some :
    ∀ (lit cs rest : List Char), stripLit lit cs = some rest ↔ cs = lit ++ rest := by
  intro lit
  induction lit with
  | nil =>
    intro cs rest
    simp [stripLit]
  | cons l ls ih =>
    intro cs rest
    cases cs with
    | nil => simp [stripLit]
    | cons c cs' =>
      by_cases h : c = l
      · subst h
        simp [stripLit, ih]
      · simp [stripLit, h]

theorem scanFirst_eq_some_iff {α} (f : List Char → Option α) (cs : List Char) (a : α) :
    scanFirst f cs = some a ↔
      ∃ i, i ≤ cs.length ∧ f (cs.drop i) = some a ∧ ∀ j < i, f (cs.drop j) = none := by
  induction cs with
  | nil =>
    simp only [scanFirst, List.drop_nil, List.length_nil]
    constructor
    · intro h
      exact ⟨0, le_rfl, h, fun j hj => absurd hj (Nat.not_lt_zero j)⟩
    · rintro ⟨i, hi, hf, hmin⟩
      exact hf
  | cons c cs ih =>
    simp only [scanFirst]
    cases hf : f (c :: cs) with
    | some r =>
      constructor
      · intro h
        refine ⟨0, Nat.zero_le _, ?_, fun j hj => absurd hj (Nat.not_lt_zero j)⟩
        rw [List.drop_zero, hf]
        exact h
      · rintro ⟨i, hi, hfi, hmin⟩
        cases i with
        | zero =>
          rw [List.drop_zero, hf] at hfi
          exact hfi
        | succ j =>
          have h0 := hmin 0 (Nat.succ_pos j)
          rw [List.drop_zero, hf] at h0
          cases h0
    | none =>
      rw [ih]
      constructor
      · rintro ⟨i, hi, hfi, hmin⟩
        refine ⟨i + 1, by simpa using Nat.succ_le_succ hi, by simpa using hfi, ?_⟩
        intro j hj
        cases j with
        | zero =>
          rw [List.drop_zero]
          exact hf
        | succ k =>
          rw [List.drop_succ_cons]
          exact hmin k (Nat.lt_of_succ_lt_succ hj)
      · rintro ⟨i, hi, hfi, hmin⟩
        cases i with
        | zero =>
          rw [List.drop_zero, hf] at hfi
          cases hfi
        | succ k =>
          refine ⟨k, ?_, by simpa using hfi, ?_⟩
          · simpa using Nat.le_of_succ_le_succ hi
          · intro j hj
            have := hmin (j + 1) (Nat.succ_lt_succ hj)
            rw [List.drop_succ_cons] at this
            exact this

theorem scanFirst_eq_none_iff {α} (f : List Char → Option α) (cs : List Char) :
    scanFirst f cs = none ↔ ∀ i, f (cs.drop i) = none := by
  induction cs with
  | nil =>
    simp only [scanFirst, List.drop_nil]
    exact ⟨fun h _ => h, fun h => h 0⟩
  | cons c cs ih =>
    simp only [scanFirst]
    cases hf : f (c :: cs) with
    | some r =>
      constructor
      · intro h
        cases h
      · intro h
        have := h 0
        rw [List.drop_zero, hf] at this
        cases this
    | none =>
      rw [ih]
      constructor
      · intro h i
        cases i with
        | zero =>
          rw [List.drop_zero]
          exact hf
        | succ k =>
          rw [List.drop_succ_cons]
          exact h k
      · intro h i
        have := h (i + 1)
        rw [List.drop_succ_cons] at this
        exact this

theorem httpsAt_eq_some_iff (cs url : List Char) :
    httpsAt cs = some url ↔
      ∃ tail, cs = "https://".data ++ tail ∧
        url = "https://".data ++ tail.takeWhile (fun c => !isUnicodeWhitespace c) := by
  unfold httpsAt
  cases hs : stripLit "https://".data cs with
  | none =>
    constructor
    · intro h
      cases h
    · rintro ⟨tail, rfl, _⟩
      rw [(stripLit_eq_some _ _ tail).mpr rfl] at hs
      cases hs
  | some rest =>
    have hcs : cs = "https://".data ++ rest := (stripLit_eq_some _ _ _).mp hs
    constructor
    · intro h
      simp only [Option.some.injEq] at h
      exact ⟨rest, hcs, h.symm⟩
    · rintro ⟨tail, htail, hurl⟩
      have hrt : rest = tail := List.append_cancel_left (hcs ▸ htail)
      subst hrt
      rw [hurl]

theorem dropOne_eq_some (l r : List Char) :
    dropOne l = some r ↔ ∃ c, l = c :: r ∧ c ≠ '\n' := by
  cases l with
  | nil => simp [dropOne]
  | cons c rest =>
    simp only [dropOne]
    by_cases h : c = '\n'
    · rw [if_pos h]
      subst h
      constructor
      · intro hc
        cases hc
      · rintro ⟨c', hc, hne⟩
        injection hc with h1 h2
        exact absurd h1.symm hne
    · rw [if_neg h]
      constructor
      · intro hc
        injection hc with h1
        exact ⟨c, by rw [h1], h⟩
      · rintro ⟨c', hc, hne⟩
        injection hc with h1 h2
        rw [h2]

theorem spotifyAt_eq_some_iff (cs id : List Char) :
    spotifyAt cs = some id ↔
      ∃ w1 w2 tail,
        cs = "https://open".data ++
          (w1 :: ("spotify".data ++ (w2 :: ("com/track/".data ++ tail))))
        ∧ w1 ≠ '\n' ∧ w2 ≠ '\n'
        ∧ id = tail.takeWhile isAlnumAscii := by
  constructor
  · intro h
    simp only [spotifyAt, Option.bind_eq_some, Option.some.injEq] at h
    obtain ⟨cs1, h1, cs2, h2, cs3, h3, cs4, h4, cs5, h5, h6⟩ := h
    obtain ⟨w1, rfl, hw1⟩ := (dropOne_eq_some _ _).mp h2
    obtain ⟨w2, rfl, hw2⟩ := (dropOne_eq_some _ _).mp h4
    have e1 := (stripLit_eq_some _ _ _).mp h1
    have e2 := (stripLit_eq_some _ _ _).mp h3
    have e3 := (stripLit_eq_some _ _ _).mp h5
    refine ⟨w1, w2, cs5, ?_, hw1, hw2, h6.symm⟩
    rw [e1, e2, e3]
  · rintro ⟨w1, w2, tail, rfl, hw1, hw2, hid⟩
    have e1 : stripLit "https://open".data
        ("https://open".data ++
          (w1 :: ("spotify".data ++ (w2 :: ("com/track/".data ++ tail)))))
        = some (w1 :: ("spotify".data ++ (w2 :: ("com/track/".data ++ tail)))) :=
      (stripLit_eq_some _ _ _).mpr rfl
    have e2 : stripLit "spotify".data
        ("spotify".data ++ (w2 :: ("com/track/".data ++ tail)))
        = some (w2 :: ("com/track/".data ++ tail)) :=
      (stripLit_eq_some _ _ _).mpr rfl
    have e3 : stripLit "com/track/".data ("com/track/".data ++ tail) = some tail :=
      (stripLit_eq_some _ _ _).mpr rfl
    simp only [spotifyAt, e1, Option.some_bind, dropOne, if_neg hw1, e2, if_neg hw2,
      e3, hid]

theorem https_contained_iff (cs : List Char) :
    scanFirst httpsAt cs = none ↔ ¬∃ l r, cs = l ++ ("https://".data ++ r) := by
  rw [scanFirst_eq_none_iff]
  constructor
  · rintro h ⟨l, r, rfl⟩
    have hnone := h l.length
    rw [List.drop_left] at hnone
    have hsome : httpsAt ("https://".data ++ r) =
        some ("https://".data ++ r.takeWhile (fun c => !isUnicodeWhitespace c)) :=
      (httpsAt_eq_some_iff _ _).mpr ⟨r, rfl, rfl⟩
    rw [hnone] at hsome
    cases hsome
  · intro h i
    cases hf : httpsAt (cs.drop i) with
    | none => rfl
    | some url =>
      obtain ⟨tail, htail, _⟩ := (httpsAt_eq_some_iff _ _).mp hf
      exact absurd ⟨cs.take i, tail, by rw [← htail, List.take_append_drop]⟩ h

/-- C3 (amended): `from_msg_content` is total and deterministic, applying the
two URL patterns in strict priority order: a Spotify-pattern match (at the
leftmost position) returns `Spotify id` with `id` the maximal
ASCII-alphanumeric run after the matched `/track/`; otherwise, if and only
if the text contains `https://`, it returns `Url` of the first
whitespace-free match; otherwise `Miitopia`. -/
theorem c3_classifier (s : String) :
    (∀ id, scanFirst spotifyAt s.data = some id →
        from_msg_content s = AudioSource.Spotify (String.mk id)
      ∧ ∃ i w1 w2 tail,
          s.data.drop i = "https://open".data ++
            (w1 :: ("spotify".data ++ (w2 :: ("com/track/".data ++ tail))))
        ∧ w1 ≠ '\n' ∧ w2 ≠ '\n'
        ∧ id = tail.takeWhile isAlnumAscii
        ∧ ∀ j < i, spotifyAt (s.data.drop j) = none)
  ∧ (scanFirst spotifyAt s.data = none →
      ∀ url, scanFirst httpsAt s.data = some url →
        from_msg_content s = AudioSource.Url (String.mk url)
      ∧ ∃ i tail,
          s.data.drop i = "https://".data ++ tail
        ∧ url = "https://".data ++ tail.takeWhile (fun c => !isUnicodeWhitespace c)
        ∧ ∀ j < i, httpsAt (s.data.drop j) = none)
  ∧ (scanFirst httpsAt s.data = none ↔ ¬∃ l r, s.data = l ++ ("https://".data ++ r))
  ∧ (scanFirst spotifyAt s.data = none → scanFirst httpsAt s.data = none →
      from_msg_content s = AudioSource.Miitopia) := by
  refine ⟨?_, ?_, https_contained_iff s.data, ?_⟩
  · intro id h
    constructor
    · simp only [from_msg_content, h]
    · obtain ⟨i, _, hfi, hmin⟩ := (scanFirst_eq_some_iff _ _ _).mp h
      obtain ⟨w1, w2, tail, hshape, hw1, hw2, hid⟩ := (spotifyAt_eq_some_iff _ _).mp hfi
      exact ⟨i, w1, w2, tail, hshape, hw1, hw2, hid, hmin⟩
  · intro hsp url h
    constructor
    · simp only [from_msg_content, hsp, h]
    · obtain ⟨i, _, hfi, hmin⟩ := (scanFirst_eq_some_iff _ _ _).mp h
      obtain ⟨tail, hshape, hurl⟩ := (httpsAt_eq_some_iff _ _).mp hfi
      exact ⟨i, tail, hshape, hurl, hmin⟩
  · intro hsp hht
    simp only [from_msg_content, hsp, hht]

/-- Counterexample for C3 as stated: on a track URL whose path segment is
`ab-cd`, the capture group `[a-zA-Z0-9]*` stops at the hyphen, so the
classifier returns id `"ab"`, not the path segment `"ab-cd"` following
`/track/`. -/
theorem c3_classifier_cex :
    from_msg_content "https://open.spotify.com/track/ab-cd" = AudioSource.Spotify "ab"
  ∧ specTrackPathSegment "https://open.spotify.com/track/ab-cd" = some "ab-cd".data
  ∧ ("ab" : String) ≠ "ab-cd" := by
  refine ⟨by decide, by decide, by decide⟩

/-- Witness for C3 on all three classification outcomes. -/
theorem c3_classifier_witness :
    from_msg_content "x https://open.spotify.com/track/AbC12 y" = AudioSource.Spotify "AbC12"
  ∧ from_msg_content "see https://example.com/a?b c" = AudioSource.Url "https://example.com/a?b"
  ∧ from_msg_content "hello there" = AudioSource.Miitopia := by
  refine ⟨?_, ?_, ?_⟩
  · exact ((c3_classifier "x https://open.spotify.com/track/AbC12 y").1
      "AbC12".data (by decide)).1
  · exact ((c3_classifier "see https://example.com/a?b c").2.1 (by decide)
      "https://example.com/a?b".data (by decide)).1
  · exact (c3_classifier "hello there").2.2.2 (by decide) (by decide)

/-- Regex-semantics evaluation checks: `.` does not match a newline, so a
line break inside the host makes the Spotify pattern fail and the text is
classified by the https pattern, whose match also stops at the newline; and
`[^\s]` excludes non-ASCII Unicode whitespace such as U+00A0, so the first
https match stops there. -/
theorem from_msg_content_whitespace_checks :
    from_msg_content "https://open\nspotify.com/track/abc" = AudioSource.Url "https://open"
  ∧ from_msg_content "see https://x.com/a\u00A0next" = AudioSource.Url "https://x.com/a" := by
  refine ⟨by decide, by decide⟩

end Miitopia
